import Mathlib

/-!
Verification development for the gossip all-to-all transfer-scheduling engine.

The bookkeeping core (`transfer_handler::push_back` in all_to_all.cuh and the
textually identical `transfer_handler_graph::add_transfer` in all_to_all.cuh and
all_to_all_graph.cuh) is embedded as a pure state-passing function over a
handler record whose tables are total functions on device indices, matching the
source's `std::vector` tables at every in-range index.  The orchestrator
entry points (`all2all_t::execAsync`, `all2all_graph_t::prepareExec`) are
embedded as pure functions returning a result record that also carries the
list of copy descriptors actually launched during the call.
-/

namespace Gossip

/-- Modelled from the spec: the `SDIV` ceiling-division macro lives in
`include/gossip/config.h`, which is not among the provided sources.  The spec
describes the per-chunk size as `ceil(total / C)`; `SDIV(x, y) = (x+y-1)/y` is
that ceiling for `y > 0`. -/
def SDIV (x y : Nat) : Nat := (x + y - 1) / y

/-- Modelled from the spec: `check` lives in `include/gossip/error_checking.hpp`,
which is not among the provided sources.  Per the spec, configuration errors are
"reported via a boolean failure result plus a descriptive message": `check`
prints the message when the condition fails and returns the condition itself. -/
def check (b : Bool) : Bool := b

/-- Modelled from the spec: `check_size` lives in
`include/gossip/error_checking.hpp`, which is not among the provided sources.
Per the spec, "every intermediate and final per-device write cursor must not
exceed the caller-declared destination-buffer length for that device;
violation is reported as a configuration error". -/
def check_size (cursors : Nat → Nat) (num_devices : Nat) (lens : List Nat) : Bool :=
  (List.range num_devices).all fun d => decide (cursors d ≤ lens.getD d 0)

/-- One copy descriptor: `all2all_t::transfer` (all_to_all.cuh lines 62-89) and
the identical `all2all_graph_t::transfer` (all_to_all_graph.cuh lines 71-98). -/
structure transfer where
  src_gpu : Nat
  src_pos : Nat
  trg_gpu : Nat
  trg_pos : Nat
  len : Nat
deriving DecidableEq, Repr

/-- State of `all2all_t::transfer_handler` (all_to_all.cuh lines 91-127); the
same fields with the same initialization also make up
`transfer_handler_graph` in both files.  Each `std::vector` table becomes a
total function on indices; `phases` maps a phase index to the list of
descriptors `emplace_back`-ed into that phase so far. -/
structure transfer_handler where
  num_devices : Nat
  src_offsets : Nat → Nat → Nat
  phases_offsets : Nat → Nat → Nat
  trg_offsets : Nat → Nat → Nat
  src_displacements : Nat → Nat → Nat
  sizes : Nat → Nat → Nat
  num_phases : Nat
  phases : Nat → List transfer
  num_chunks : Nat

/-- The `transfer_handler` constructor (all_to_all.cuh lines 107-127):
`src_offsets` starts as a copy of `src_displacements`, `trg_offsets` as a copy
of `trg_displacements`, the intermediate `phases_offsets` rows are
zero-initialized, and every phase's descriptor list starts empty. -/
def transfer_handler.init
    (num_devices : Nat)
    (src_displacements trg_displacements sizes : Nat → Nat → Nat)
    (num_phases num_chunks : Nat) : transfer_handler where
  num_devices := num_devices
  src_offsets := src_displacements
  phases_offsets := fun _ _ => 0
  trg_offsets := trg_displacements
  src_displacements := src_displacements
  sizes := sizes
  num_phases := num_phases
  phases := fun _ => []
  num_chunks := num_chunks

/-- The transfer length resolved by `push_back`/`add_transfer`
(all_to_all.cuh lines 137-146): the nominal length
`SDIV(sizes[front][back], num_chunks) * chunks` clamped so the source cursor
does not pass `src_displacements[front][back] + sizes[front][back]`. -/
def transfer_handler.resolved_size
    (h : transfer_handler) (sequence : List Nat) (chunks : Nat) : Nat :=
  let front := sequence.headD 0
  let back := sequence.getLastD 0
  let size_per_chunk := SDIV (h.sizes front back) h.num_chunks
  let transfer_size := size_per_chunk * chunks
  let src_offset := h.src_offsets front back
  let limit := h.src_displacements front back + h.sizes front back
  if src_offset + transfer_size > limit then limit - src_offset else transfer_size

/-- Embedding of `transfer_handler::push_back` (all_to_all.cuh lines 129-179), textually
identical to `transfer_handler_graph::add_transfer` (all_to_all.cuh lines
317-367 and all_to_all_graph.cuh lines 167-217).  Returns the C++ boolean
result together with the successor handler state. -/
def transfer_handler.push_back
    (h : transfer_handler) (sequence : List Nat) (chunks : Nat) :
    Bool × transfer_handler :=
  if check (sequence.length == h.num_phases + 1) = false then
    (false, h)
  else
    let front := sequence.headD 0
    let back := sequence.getLastD 0
    let size_per_chunk := SDIV (h.sizes front back) h.num_chunks
    let transfer_size0 := size_per_chunk * chunks
    let src_offset := h.src_offsets front back
    let trg_offset := h.trg_offsets front back
    let limit := h.src_displacements front back + h.sizes front back
    let transfer_size :=
      if src_offset + transfer_size0 > limit then limit - src_offset
      else transfer_size0
    let newPhases : Nat → List transfer :=
      if h.num_phases = 1 then
        fun p =>
          if p = 0 then
            h.phases 0 ++ [⟨sequence.getD 0 0, src_offset,
                            sequence.getD 1 0, trg_offset, transfer_size⟩]
          else h.phases p
      else
        fun p =>
          if p = 0 then
            h.phases 0 ++ [⟨sequence.getD 0 0, src_offset,
                            sequence.getD 1 0,
                            h.phases_offsets 0 (sequence.getD 1 0),
                            transfer_size⟩]
          else if p < h.num_phases - 1 then
            h.phases p ++ [⟨sequence.getD p 0,
                            h.phases_offsets (p - 1) (sequence.getD p 0),
                            sequence.getD (p + 1) 0,
                            h.phases_offsets p (sequence.getD (p + 1) 0),
                            transfer_size⟩]
          else if p = h.num_phases - 1 then
            h.phases p ++ [⟨sequence.getD p 0,
                            h.phases_offsets (p - 1) (sequence.getD p 0),
                            sequence.getD (p + 1) 0, trg_offset,
                            transfer_size⟩]
          else h.phases p
    (true,
      { h with
        phases := newPhases
        src_offsets := fun s d =>
          if s = front ∧ d = back then h.src_offsets s d + transfer_size
          else h.src_offsets s d
        phases_offsets := fun p dev =>
          if p < h.num_phases - 1 ∧ dev = sequence.getD (p + 1) 0 then
            h.phases_offsets p dev + transfer_size
          else h.phases_offsets p dev
        trg_offsets := fun s d =>
          if s = front ∧ d = back then h.trg_offsets s d + transfer_size
          else h.trg_offsets s d })

/-- The descriptor that a successful `push_back`/`add_transfer` call appends to
phase `p`: the first phase reads at the source cursor, the last phase writes at
the destination cursor, and every other side goes through the intermediate
per-device cursors (all_to_all.cuh lines 148-170). -/
def transfer_handler.emitted_descr
    (h : transfer_handler) (sequence : List Nat) (chunks : Nat) (p : Nat) :
    transfer where
  src_gpu := sequence.getD p 0
  src_pos :=
    if p = 0 then h.src_offsets (sequence.headD 0) (sequence.getLastD 0)
    else h.phases_offsets (p - 1) (sequence.getD p 0)
  trg_gpu := sequence.getD (p + 1) 0
  trg_pos :=
    if p = h.num_phases - 1 then
      h.trg_offsets (sequence.headD 0) (sequence.getLastD 0)
    else h.phases_offsets p (sequence.getD (p + 1) 0)
  len := h.resolved_size sequence chunks

theorem transfer_handler.push_back_fail
    (h : transfer_handler) (sequence : List Nat) (chunks : Nat)
    (hlen : sequence.length ≠ h.num_phases + 1) :
    h.push_back sequence chunks = (false, h) := by
  simp [transfer_handler.push_back, check, hlen]

theorem transfer_handler.push_back_fst
    (h : transfer_handler) (sequence : List Nat) (chunks : Nat)
    (hlen : sequence.length = h.num_phases + 1) :
    (h.push_back sequence chunks).1 = true := by
  simp [transfer_handler.push_back, check, hlen]

theorem transfer_handler.push_back_src_offsets
    (h : transfer_handler) (sequence : List Nat) (chunks : Nat)
    (hlen : sequence.length = h.num_phases + 1) (s d : Nat) :
    (h.push_back sequence chunks).2.src_offsets s d =
      if s = sequence.headD 0 ∧ d = sequence.getLastD 0 then
        h.src_offsets s d + h.resolved_size sequence chunks
      else h.src_offsets s d := by
  simp [transfer_handler.push_back, check, hlen, transfer_handler.resolved_size]

theorem transfer_handler.push_back_trg_offsets
    (h : transfer_handler) (sequence : List Nat) (chunks : Nat)
    (hlen : sequence.length = h.num_phases + 1) (s d : Nat) :
    (h.push_back sequence chunks).2.trg_offsets s d =
      if s = sequence.headD 0 ∧ d = sequence.getLastD 0 then
        h.trg_offsets s d + h.resolved_size sequence chunks
      else h.trg_offsets s d := by
  simp [transfer_handler.push_back, check, hlen, transfer_handler.resolved_size]

theorem transfer_handler.push_back_phases_offsets
    (h : transfer_handler) (sequence : List Nat) (chunks : Nat)
    (hlen : sequence.length = h.num_phases + 1) (p dev : Nat) :
    (h.push_back sequence chunks).2.phases_offsets p dev =
      if p < h.num_phases - 1 ∧ dev = sequence.getD (p + 1) 0 then
        h.phases_offsets p dev + h.resolved_size sequence chunks
      else h.phases_offsets p dev := by
  simp [transfer_handler.push_back, check, hlen, transfer_handler.resolved_size]

theorem transfer_handler.push_back_frame
    (h : transfer_handler) (sequence : List Nat) (chunks : Nat) :
    (h.push_back sequence chunks).2.num_devices = h.num_devices ∧
    (h.push_back sequence chunks).2.src_displacements = h.src_displacements ∧
    (h.push_back sequence chunks).2.sizes = h.sizes ∧
    (h.push_back sequence chunks).2.num_phases = h.num_phases ∧
    (h.push_back sequence chunks).2.num_chunks = h.num_chunks := by
  by_cases hlen : sequence.length = h.num_phases + 1
  · simp [transfer_handler.push_back, check, hlen]
  · simp [transfer_handler.push_back, check, hlen]

theorem transfer_handler.push_back_phases
    (h : transfer_handler) (sequence : List Nat) (chunks : Nat)
    (hP : 1 ≤ h.num_phases)
    (hlen : sequence.length = h.num_phases + 1) (p : Nat) :
    (h.push_back sequence chunks).2.phases p =
      if p < h.num_phases then
        h.phases p ++ [h.emitted_descr sequence chunks p]
      else h.phases p := by
  by_cases h1 : h.num_phases = 1
  · by_cases hp0 : p = 0
    · subst hp0
      simp [transfer_handler.push_back, check, hlen, h1,
            transfer_handler.emitted_descr, transfer_handler.resolved_size]
    · have hnp : ¬ p < h.num_phases := by omega
      simp [transfer_handler.push_back, check, hlen, h1, hp0, hnp]
  · by_cases hp0 : p = 0
    · subst hp0
      have ha : (0:Nat) < h.num_phases := hP
      have hb : ¬ (0 = h.num_phases - 1) := by omega
      simp [transfer_handler.push_back, check, hlen, h1, ha, hb,
            transfer_handler.emitted_descr, transfer_handler.resolved_size]
    · by_cases hpm : p < h.num_phases - 1
      · have ha : p < h.num_phases := by omega
        have hb : ¬ (p = h.num_phases - 1) := by omega
        simp [transfer_handler.push_back, check, hlen, h1, hp0, hpm, ha, hb,
              transfer_handler.emitted_descr, transfer_handler.resolved_size]
      · by_cases hpl : p = h.num_phases - 1
        · have ha : p < h.num_phases := by omega
          have hb : ¬ (h.num_phases - 1 = 0) := by omega
          rw [if_pos ha]
          simp [transfer_handler.push_back, check, hlen, h1, hp0, hpm, hpl,
                hb, transfer_handler.emitted_descr,
                transfer_handler.resolved_size, Nat.sub_add_cancel hP]
        · have ha : ¬ p < h.num_phases := by omega
          simp [transfer_handler.push_back, check, hlen, h1, hp0, hpm, hpl, ha]

/-- Record of one `push_back`/`add_transfer` call: the boolean result, the hop
sequence's endpoints, the source offset read at call time, the advance of the
pair's source cursor (the resolved transfer length), and the requested chunk
count. -/
structure callRecord where
  ok : Bool
  front : Nat
  back : Nat
  off : Nat
  len : Nat
  chunks : Nat
deriving DecidableEq, Repr

/-- Replays a list of `(hop sequence, relative size)` calls through
`push_back`, as the orchestrator's loop over `transfer_plan.transfer_sequences()`
does, recording a `callRecord` per call. -/
def runTrace : transfer_handler → List (List Nat × Nat) →
    transfer_handler × List callRecord
  | h, [] => (h, [])
  | h, c :: cs =>
      let r := h.push_back c.1 c.2
      let front := c.1.headD 0
      let back := c.1.getLastD 0
      let rec0 : callRecord :=
        ⟨r.1, front, back, h.src_offsets front back,
         r.2.src_offsets front back - h.src_offsets front back, c.2⟩
      let rest := runTrace r.2 cs
      (rest.1, rec0 :: rest.2)

/-- The handler state after replaying a list of calls. -/
def runCalls (h : transfer_handler) (cs : List (List Nat × Nat)) :
    transfer_handler :=
  (runTrace h cs).1

theorem runTrace_cons (h : transfer_handler) (c : List Nat × Nat)
    (cs : List (List Nat × Nat)) :
    runTrace h (c :: cs) =
      ((runTrace (h.push_back c.1 c.2).2 cs).1,
        ⟨(h.push_back c.1 c.2).1, c.1.headD 0, c.1.getLastD 0,
         h.src_offsets (c.1.headD 0) (c.1.getLastD 0),
         (h.push_back c.1 c.2).2.src_offsets (c.1.headD 0) (c.1.getLastD 0)
           - h.src_offsets (c.1.headD 0) (c.1.getLastD 0), c.2⟩
          :: (runTrace (h.push_back c.1 c.2).2 cs).2) := rfl

/-- Selects the records of successful calls naming the pair `(s, d)`. -/
def pairPred (s d : Nat) (r : callRecord) : Bool :=
  r.ok && (r.front == s) && (r.back == d)

def pairRecords (h : transfer_handler) (cs : List (List Nat × Nat))
    (s d : Nat) : List callRecord :=
  (runTrace h cs).2.filter (pairPred s d)

/-- The source-side range `(offset, length)` claimed by one recorded call. -/
def rangeOf (r : callRecord) : Nat × Nat := (r.off, r.len)

/-- The source-side byte ranges `(offset, length)` claimed by the successful
calls naming pair `(s, d)`. -/
def pairRanges (h : transfer_handler) (cs : List (List Nat × Nat))
    (s d : Nat) : List (Nat × Nat) :=
  (pairRecords h cs s d).map rangeOf

/-- Total chunks requested across the successful calls naming pair `(s, d)`. -/
def pairChunks (h : transfer_handler) (cs : List (List Nat × Nat))
    (s d : Nat) : Nat :=
  ((pairRecords h cs s d).map callRecord.chunks).sum

/-- Predicate `chainFrom a l`: the ranges in `l` are consecutive starting at `a`. -/
def chainFrom : Nat → List (Nat × Nat) → Prop
  | _, [] => True
  | a, r :: l => r.1 = a ∧ chainFrom (a + r.2) l

theorem chainFrom_mono (l : List (Nat × Nat)) :
    ∀ a, chainFrom a l → ∀ r ∈ l, a ≤ r.1 := by
  induction l with
  | nil => intro a _ r hr; cases hr
  | cons x l ih =>
      intro a hc r hr
      obtain ⟨hx, hl⟩ := hc
      rcases List.mem_cons.mp hr with h | h
      · subst h; omega
      · exact le_trans (Nat.le_add_right a x.2) (ih (a + x.2) hl r h)

theorem chainFrom_pairwise (l : List (Nat × Nat)) :
    ∀ a, chainFrom a l → l.Pairwise (fun x y => x.1 + x.2 ≤ y.1 ∨ y.1 + y.2 ≤ x.1) := by
  induction l with
  | nil => intro a _; exact List.Pairwise.nil
  | cons x l ih =>
      intro a hc
      obtain ⟨hx, hl⟩ := hc
      refine List.Pairwise.cons ?_ (ih (a + x.2) hl)
      intro y hy
      have := chainFrom_mono l (a + x.2) hl y hy
      omega

theorem chainFrom_mem_iff (l : List (Nat × Nat)) :
    ∀ a x, chainFrom a l →
      ((∃ r ∈ l, r.1 ≤ x ∧ x < r.1 + r.2) ↔
        (a ≤ x ∧ x < a + (l.map Prod.snd).sum)) := by
  induction l with
  | nil => intro a x _; simp
  | cons r l ih =>
      intro a x hc
      obtain ⟨hr, hl⟩ := hc
      have hiff := ih (a + r.2) x hl
      simp only [List.map_cons, List.sum_cons]
      constructor
      · rintro ⟨y, hy, h1, h2⟩
        rcases List.mem_cons.mp hy with h | h
        · subst h; omega
        · have := hiff.mp ⟨y, h, h1, h2⟩
          omega
      · intro hx
        by_cases hcase : x < a + r.2
        · exact ⟨r, List.mem_cons_self r l, by omega, by omega⟩
        · obtain ⟨y, hy, h1, h2⟩ := hiff.mpr (by omega)
          exact ⟨y, List.mem_cons_of_mem r hy, h1, h2⟩

theorem min_add_min (a n m L : Nat) (h : a ≤ L) :
    min (min (a + n) L + m) L = min (a + n + m) L := by omega

/-- Product `SDIV x y * y` is at least `x` whenever `y > 0`: the ceiling division
covers the whole size. -/
theorem SDIV_mul_ge (x y : Nat) (hy : 1 ≤ y) : x ≤ SDIV x y * y := by
  unfold SDIV
  have h1 := Nat.div_add_mod (x + y - 1) y
  have h2 : (x + y - 1) % y < y := Nat.mod_lt _ (by omega)
  rw [Nat.mul_comm]
  omega

theorem pairPred_eq_true (s d : Nat) (r : callRecord) :
    pairPred s d r = true ↔ (r.ok = true ∧ r.front = s ∧ r.back = d) := by
  simp [pairPred, and_assoc]

/-- Advancing the pair's source cursor by the resolved length is the clamped
addition of the nominal length: the cursor lands on
`min (cursor + nominal) limit`. -/
theorem transfer_handler.resolved_size_add
    (h : transfer_handler) (sequence : List Nat) (chunks : Nat)
    (hle : h.src_offsets (sequence.headD 0) (sequence.getLastD 0) ≤
        h.src_displacements (sequence.headD 0) (sequence.getLastD 0) +
          h.sizes (sequence.headD 0) (sequence.getLastD 0)) :
    h.src_offsets (sequence.headD 0) (sequence.getLastD 0) +
        h.resolved_size sequence chunks =
      min (h.src_offsets (sequence.headD 0) (sequence.getLastD 0) +
             SDIV (h.sizes (sequence.headD 0) (sequence.getLastD 0))
               h.num_chunks * chunks)
          (h.src_displacements (sequence.headD 0) (sequence.getLastD 0) +
             h.sizes (sequence.headD 0) (sequence.getLastD 0)) := by
  unfold transfer_handler.resolved_size
  dsimp only
  split <;> omega

/-- Core invariant of the bookkeeper for a fixed pair `(s, d)`: starting from
any handler whose `(s, d)` source cursor lies between its displacement and the
pair's limit, the ranges claimed for the pair by a run of successful calls are
consecutive starting at the cursor, their lengths sum to the total cursor
advance, and the final cursor is the clamped sum of the nominal lengths. -/
theorem runTrace_pair_chain (s d : Nat) (cs : List (List Nat × Nat)) :
    ∀ h : transfer_handler,
      (∀ c ∈ cs, (c.1).length = h.num_phases + 1) →
      h.src_displacements s d ≤ h.src_offsets s d →
      h.src_offsets s d ≤ h.src_displacements s d + h.sizes s d →
      chainFrom (h.src_offsets s d) (pairRanges h cs s d)
      ∧ h.src_offsets s d + ((pairRanges h cs s d).map Prod.snd).sum
          = (runTrace h cs).1.src_offsets s d
      ∧ (runTrace h cs).1.src_offsets s d
          = min (h.src_offsets s d +
                 SDIV (h.sizes s d) h.num_chunks * (pairChunks h cs s d))
                (h.src_displacements s d + h.sizes s d) := by
  induction cs with
  | nil =>
      intro h _ hlo hhi
      refine ⟨trivial, ?_, ?_⟩ <;>
        simp [pairRanges, pairRecords, pairChunks, runTrace] <;> omega
  | cons c cs ih =>
      intro h hlens hlo hhi
      have hclen : c.1.length = h.num_phases + 1 :=
        hlens c (List.mem_cons_self c cs)
      have hfst := h.push_back_fst c.1 c.2 hclen
      have hsrcfun := h.push_back_src_offsets c.1 c.2 hclen
      obtain ⟨hfr1, hfr2, hfr3, hfr4, hfr5⟩ := h.push_back_frame c.1 c.2
      have hlens' : ∀ c' ∈ cs,
          (c'.1).length = (h.push_back c.1 c.2).2.num_phases + 1 := by
        intro c' hc'; rw [hfr4]; exact hlens c' (List.mem_cons_of_mem c hc')
      have hrc : (runTrace h (c :: cs)).1 =
          (runTrace (h.push_back c.1 c.2).2 cs).1 := rfl
      by_cases hpair : s = c.1.headD 0 ∧ d = c.1.getLastD 0
      · obtain ⟨hs', hd'⟩ := hpair
        subst hs'; subst hd'
        have hcur : (h.push_back c.1 c.2).2.src_offsets
              (c.1.headD 0) (c.1.getLastD 0) =
            h.src_offsets (c.1.headD 0) (c.1.getLastD 0) +
              h.resolved_size c.1 c.2 := by
          rw [hsrcfun (c.1.headD 0) (c.1.getLastD 0), if_pos ⟨rfl, rfl⟩]
        have hts := h.resolved_size_add c.1 c.2 hhi
        have hlo' : (h.push_back c.1 c.2).2.src_displacements
              (c.1.headD 0) (c.1.getLastD 0) ≤
            (h.push_back c.1 c.2).2.src_offsets (c.1.headD 0) (c.1.getLastD 0) := by
          rw [hfr2, hcur]; omega
        have hhi' : (h.push_back c.1 c.2).2.src_offsets
              (c.1.headD 0) (c.1.getLastD 0) ≤
            (h.push_back c.1 c.2).2.src_displacements
                (c.1.headD 0) (c.1.getLastD 0) +
              (h.push_back c.1 c.2).2.sizes (c.1.headD 0) (c.1.getLastD 0) := by
          rw [hfr2, hfr3, hcur, hts]; omega
        obtain ⟨ihchain, ihsum, ihmin⟩ :=
          ih (h.push_back c.1 c.2).2 hlens' hlo' hhi'
        rw [hfr2, hfr3, hfr5] at ihmin
        rw [pairRanges] at ihchain ihsum
        rw [pairChunks] at ihmin
        have hrecs : pairRecords h (c :: cs) (c.1.headD 0) (c.1.getLastD 0) =
            ⟨(h.push_back c.1 c.2).1, c.1.headD 0, c.1.getLastD 0,
             h.src_offsets (c.1.headD 0) (c.1.getLastD 0),
             (h.push_back c.1 c.2).2.src_offsets (c.1.headD 0) (c.1.getLastD 0)
               - h.src_offsets (c.1.headD 0) (c.1.getLastD 0), c.2⟩ ::
              pairRecords (h.push_back c.1 c.2).2 cs
                (c.1.headD 0) (c.1.getLastD 0) := by
          rw [pairRecords, runTrace_cons]
          rw [List.filter_cons, if_pos]
          · rfl
          · simp [pairPred_eq_true, hfst]
        have hstep : h.src_offsets (c.1.headD 0) (c.1.getLastD 0) +
            ((h.push_back c.1 c.2).2.src_offsets (c.1.headD 0) (c.1.getLastD 0)
              - h.src_offsets (c.1.headD 0) (c.1.getLastD 0)) =
            (h.push_back c.1 c.2).2.src_offsets
              (c.1.headD 0) (c.1.getLastD 0) := by omega
        refine ⟨?_, ?_, ?_⟩
        · rw [pairRanges, hrecs, List.map_cons]
          refine ⟨rfl, ?_⟩
          dsimp only [rangeOf]
          rw [hstep]
          exact ihchain
        · rw [pairRanges, hrecs, List.map_cons, List.map_cons, List.sum_cons,
              hrc]
          dsimp only [rangeOf]
          omega
        · rw [pairChunks, hrecs, List.map_cons, List.sum_cons, hrc]
          dsimp only
          rw [Nat.mul_add]
          omega
      · have hcur : (h.push_back c.1 c.2).2.src_offsets s d =
            h.src_offsets s d := by
          rw [hsrcfun s d, if_neg hpair]
        have hrecs : pairRecords h (c :: cs) s d =
            pairRecords (h.push_back c.1 c.2).2 cs s d := by
          rw [pairRecords, runTrace_cons]
          rw [List.filter_cons, if_neg]
          · rfl
          · simp only [pairPred_eq_true]
            rintro ⟨_, h1, h2⟩
            exact hpair ⟨h1.symm, h2.symm⟩
        have hlo' : (h.push_back c.1 c.2).2.src_displacements s d ≤
            (h.push_back c.1 c.2).2.src_offsets s d := by
          rw [hfr2, hcur]; exact hlo
        have hhi' : (h.push_back c.1 c.2).2.src_offsets s d ≤
            (h.push_back c.1 c.2).2.src_displacements s d +
              (h.push_back c.1 c.2).2.sizes s d := by
          rw [hfr2, hfr3, hcur]; exact hhi
        obtain ⟨ihchain, ihsum, ihmin⟩ :=
          ih (h.push_back c.1 c.2).2 hlens' hlo' hhi'
        rw [hfr2, hfr3, hfr5] at ihmin
        rw [hcur] at ihchain ihsum ihmin
        refine ⟨?_, ?_, ?_⟩
        · rw [pairRanges, hrecs, ← pairRanges]
          exact ihchain
        · rw [pairRanges, hrecs, ← pairRanges, hrc]
          exact ihsum
        · rw [pairChunks, hrecs, ← pairChunks, hrc]
          exact ihmin

/-- Claim C1: over any sequence of successful `add_transfer`/`push_back` calls on
a freshly constructed transfer handler, the source-side ranges
`[src_offset, src_offset + transfer_size)` claimed by the successive calls
naming a pair `(s, d)` are pairwise disjoint, and once the total chunks
requested for the pair reach the plan's chunk count `C` the claimed ranges
exactly tile `[src_displacements s d, src_displacements s d + sizes s d)`. -/
theorem C1_pair_ranges_disjoint_and_tile
    (num_devices : Nat) (src_disp trg_disp sizes : Nat → Nat → Nat)
    (P C : Nat) (cs : List (List Nat × Nat)) (s d : Nat)
    (hC : 1 ≤ C)
    (hok : ∀ c ∈ cs, (c.1).length = P + 1) :
    (pairRanges (transfer_handler.init num_devices src_disp trg_disp sizes P C)
        cs s d).Pairwise
      (fun x y => x.1 + x.2 ≤ y.1 ∨ y.1 + y.2 ≤ x.1)
    ∧ (pairChunks
          (transfer_handler.init num_devices src_disp trg_disp sizes P C)
          cs s d = C →
        ∀ x, (∃ r ∈ pairRanges
                (transfer_handler.init num_devices src_disp trg_disp sizes P C)
                cs s d, r.1 ≤ x ∧ x < r.1 + r.2) ↔
          (src_disp s d ≤ x ∧ x < src_disp s d + sizes s d)) := by
  obtain ⟨hchain, hsum, hmin⟩ :=
    runTrace_pair_chain s d cs
      (transfer_handler.init num_devices src_disp trg_disp sizes P C)
      hok (le_refl _) (Nat.le_add_right _ _)
  refine ⟨chainFrom_pairwise _ _ hchain, ?_⟩
  intro hcov x
  dsimp only [transfer_handler.init] at hchain hsum hmin hcov ⊢
  rw [hcov] at hmin
  have hSD : sizes s d ≤ SDIV (sizes s d) C * C := SDIV_mul_ge _ _ hC
  rw [chainFrom_mem_iff _ _ x hchain]
  omega

/-- Concrete run exercising C1: sizes 3 split into 2 chunks over two calls for
the pair `(0, 1)`; the claimed ranges are `(5, 2)` and the clamped `(7, 1)`,
which tile `[5, 8)`. -/
theorem C1_pair_ranges_disjoint_and_tile_witness :
    (pairRanges
        (transfer_handler.init 2 (fun _ _ => 5) (fun _ _ => 0) (fun _ _ => 3)
          1 2)
        [([0, 1], 1), ([0, 1], 1)] 0 1).Pairwise
      (fun x y => x.1 + x.2 ≤ y.1 ∨ y.1 + y.2 ≤ x.1)
    ∧ (∀ x, (∃ r ∈ pairRanges
              (transfer_handler.init 2 (fun _ _ => 5) (fun _ _ => 0)
                (fun _ _ => 3) 1 2)
              [([0, 1], 1), ([0, 1], 1)] 0 1, r.1 ≤ x ∧ x < r.1 + r.2) ↔
        (5 ≤ x ∧ x < 5 + 3)) := by
  have h := C1_pair_ranges_disjoint_and_tile 2 (fun _ _ => 5) (fun _ _ => 0)
    (fun _ _ => 3) 1 2 [([0, 1], 1), ([0, 1], 1)] 0 1 (by decide)
    (by intro c hc; fin_cases hc <;> rfl)
  exact ⟨h.1, h.2 (by decide)⟩

/-- Both cursors of the pair named by a call advance by the same resolved
length, and no other pair's cursors move: stated additively to avoid
truncation. -/
theorem runTrace_src_trg_balance (s d : Nat) (cs : List (List Nat × Nat)) :
    ∀ h : transfer_handler,
      (∀ c ∈ cs, (c.1).length = h.num_phases + 1) →
      (runTrace h cs).1.src_offsets s d + h.trg_offsets s d
        = (runTrace h cs).1.trg_offsets s d + h.src_offsets s d := by
  induction cs with
  | nil => intro h _; simp only [runTrace]; omega
  | cons c cs ih =>
      intro h hlens
      have hclen : c.1.length = h.num_phases + 1 :=
        hlens c (List.mem_cons_self c cs)
      have hsrc := h.push_back_src_offsets c.1 c.2 hclen s d
      have htrg := h.push_back_trg_offsets c.1 c.2 hclen s d
      have hfr4 := (h.push_back_frame c.1 c.2).2.2.2.1
      have hlens' : ∀ c' ∈ cs,
          (c'.1).length = (h.push_back c.1 c.2).2.num_phases + 1 := by
        intro c' hc'; rw [hfr4]; exact hlens c' (List.mem_cons_of_mem c hc')
      have hrc : (runTrace h (c :: cs)).1 =
          (runTrace (h.push_back c.1 c.2).2 cs).1 := rfl
      rw [hrc]
      have hstep := ih (h.push_back c.1 c.2).2 hlens'
      by_cases hpair : s = c.1.headD 0 ∧ d = c.1.getLastD 0
      · rw [if_pos hpair] at hsrc htrg
        omega
      · rw [if_neg hpair] at hsrc htrg
        omega

/-- Claim C10: after any sequence of successful `add_transfer`/`push_back` calls
on a freshly constructed handler, each pair's source and destination cursors
have advanced by exactly the same total amount:
`src_offsets[s][d] - src_displacements[s][d]
  = trg_offsets[s][d] - trg_displacements[s][d]`. -/
theorem C10_src_trg_cursors_advance_equally
    (num_devices : Nat) (src_disp trg_disp sizes : Nat → Nat → Nat)
    (P C : Nat) (cs : List (List Nat × Nat)) (s d : Nat)
    (hok : ∀ c ∈ cs, (c.1).length = P + 1) :
    (runCalls (transfer_handler.init num_devices src_disp trg_disp sizes P C)
        cs).src_offsets s d - src_disp s d
      = (runCalls
            (transfer_handler.init num_devices src_disp trg_disp sizes P C)
            cs).trg_offsets s d - trg_disp s d := by
  have hbal :=
    runTrace_src_trg_balance s d cs
      (transfer_handler.init num_devices src_disp trg_disp sizes P C) hok
  obtain ⟨_, _, hmin⟩ :=
    runTrace_pair_chain s d cs
      (transfer_handler.init num_devices src_disp trg_disp sizes P C)
      hok (le_refl _) (Nat.le_add_right _ _)
  dsimp only [transfer_handler.init] at hbal hmin
  rw [runCalls]
  dsimp only [transfer_handler.init]
  omega

/-- Concrete run exercising C10: one call for the pair `(0, 1)` advances both
of its cursors by 2. -/
theorem C10_src_trg_cursors_advance_equally_witness :
    (runCalls
        (transfer_handler.init 2 (fun _ _ => 5) (fun _ _ => 7)
          (fun _ _ => 3) 1 2)
        [([0, 1], 1)]).src_offsets 0 1 - 5
      = (runCalls
            (transfer_handler.init 2 (fun _ _ => 5) (fun _ _ => 7)
              (fun _ _ => 3) 1 2)
            [([0, 1], 1)]).trg_offsets 0 1 - 7 :=
  C10_src_trg_cursors_advance_equally 2 (fun _ _ => 5) (fun _ _ => 7)
    (fun _ _ => 3) 1 2 [([0, 1], 1)] 0 1
    (by intro c hc; fin_cases hc <;> rfl)

/-- Claim C3: in every successful `push_back`/`add_transfer` call the nominal
length is `ceil(sizes[front][back] / num_chunks) * chunks` (the ceiling being
witnessed by `SDIV_mul_ge`), the emitted length is this nominal length clamped
at the pair's limit — whenever the nominal length would overshoot, the emitted
length is exactly the remaining capacity `limit - cursor`, never more — the
cursor never passes the limit, and the call still returns `true`. -/
theorem C3_nominal_length_and_silent_clamping
    (h : transfer_handler) (sequence : List Nat) (chunks : Nat)
    (hP : 1 ≤ h.num_phases)
    (hC : 1 ≤ h.num_chunks)
    (hlen : sequence.length = h.num_phases + 1)
    (hinv : h.src_offsets (sequence.headD 0) (sequence.getLastD 0) ≤
        h.src_displacements (sequence.headD 0) (sequence.getLastD 0) +
          h.sizes (sequence.headD 0) (sequence.getLastD 0)) :
    (h.push_back sequence chunks).1 = true
    ∧ (∀ p < h.num_phases,
        (h.push_back sequence chunks).2.phases p =
          h.phases p ++ [h.emitted_descr sequence chunks p]
        ∧ (h.emitted_descr sequence chunks p).len =
            h.resolved_size sequence chunks)
    ∧ h.sizes (sequence.headD 0) (sequence.getLastD 0) ≤
        SDIV (h.sizes (sequence.headD 0) (sequence.getLastD 0))
          h.num_chunks * h.num_chunks
    ∧ (h.src_offsets (sequence.headD 0) (sequence.getLastD 0) +
          SDIV (h.sizes (sequence.headD 0) (sequence.getLastD 0))
            h.num_chunks * chunks >
        h.src_displacements (sequence.headD 0) (sequence.getLastD 0) +
          h.sizes (sequence.headD 0) (sequence.getLastD 0) →
        h.resolved_size sequence chunks =
          h.src_displacements (sequence.headD 0) (sequence.getLastD 0) +
            h.sizes (sequence.headD 0) (sequence.getLastD 0) -
            h.src_offsets (sequence.headD 0) (sequence.getLastD 0))
    ∧ (¬ (h.src_offsets (sequence.headD 0) (sequence.getLastD 0) +
          SDIV (h.sizes (sequence.headD 0) (sequence.getLastD 0))
            h.num_chunks * chunks >
        h.src_displacements (sequence.headD 0) (sequence.getLastD 0) +
          h.sizes (sequence.headD 0) (sequence.getLastD 0)) →
        h.resolved_size sequence chunks =
          SDIV (h.sizes (sequence.headD 0) (sequence.getLastD 0))
            h.num_chunks * chunks)
    ∧ (h.push_back sequence chunks).2.src_offsets
          (sequence.headD 0) (sequence.getLastD 0) ≤
        h.src_displacements (sequence.headD 0) (sequence.getLastD 0) +
          h.sizes (sequence.headD 0) (sequence.getLastD 0) := by
  refine ⟨h.push_back_fst sequence chunks hlen, ?_, SDIV_mul_ge _ _ hC,
    ?_, ?_, ?_⟩
  · intro p hp
    exact ⟨by rw [h.push_back_phases sequence chunks hP hlen p, if_pos hp],
      rfl⟩
  · intro hover
    unfold transfer_handler.resolved_size
    dsimp only
    rw [if_pos hover]
  · intro hover
    unfold transfer_handler.resolved_size
    dsimp only
    rw [if_neg hover]
  · rw [h.push_back_src_offsets sequence chunks hlen _ _, if_pos ⟨rfl, rfl⟩,
      h.resolved_size_add sequence chunks hinv]
    omega

/-- Concrete call exercising C3: nominal length `SDIV 3 2 * 3 = 6` overshoots
the remaining capacity 3, so the emitted length is clamped to 3 and the call
still succeeds. -/
theorem C3_nominal_length_and_silent_clamping_witness :
    ((transfer_handler.init 2 (fun _ _ => 0) (fun _ _ => 0) (fun _ _ => 3)
        1 2).push_back [0, 1] 3).1 = true
    ∧ (∀ p < (transfer_handler.init 2 (fun _ _ => 0) (fun _ _ => 0)
          (fun _ _ => 3) 1 2).num_phases,
        ((transfer_handler.init 2 (fun _ _ => 0) (fun _ _ => 0)
            (fun _ _ => 3) 1 2).push_back [0, 1] 3).2.phases p =
          (transfer_handler.init 2 (fun _ _ => 0) (fun _ _ => 0)
              (fun _ _ => 3) 1 2).phases p ++
            [(transfer_handler.init 2 (fun _ _ => 0) (fun _ _ => 0)
                (fun _ _ => 3) 1 2).emitted_descr [0, 1] 3 p]
        ∧ ((transfer_handler.init 2 (fun _ _ => 0) (fun _ _ => 0)
              (fun _ _ => 3) 1 2).emitted_descr [0, 1] 3 p).len =
            (transfer_handler.init 2 (fun _ _ => 0) (fun _ _ => 0)
                (fun _ _ => 3) 1 2).resolved_size [0, 1] 3)
    ∧ (3 : Nat) ≤ SDIV 3 2 * 2
    ∧ ((0 : Nat) + SDIV 3 2 * 3 > 0 + 3 →
        (transfer_handler.init 2 (fun _ _ => 0) (fun _ _ => 0)
            (fun _ _ => 3) 1 2).resolved_size [0, 1] 3 = 0 + 3 - 0)
    ∧ (¬ ((0 : Nat) + SDIV 3 2 * 3 > 0 + 3) →
        (transfer_handler.init 2 (fun _ _ => 0) (fun _ _ => 0)
            (fun _ _ => 3) 1 2).resolved_size [0, 1] 3 = SDIV 3 2 * 3)
    ∧ ((transfer_handler.init 2 (fun _ _ => 0) (fun _ _ => 0)
          (fun _ _ => 3) 1 2).push_back [0, 1] 3).2.src_offsets 0 1 ≤ 0 + 3 :=
  C3_nominal_length_and_silent_clamping
    (transfer_handler.init 2 (fun _ _ => 0) (fun _ _ => 0) (fun _ _ => 3) 1 2)
    [0, 1] 3 (by decide) (by decide) (by decide) (by decide)

/-- Claim C4: for every successful call with `num_phases > 1`, exactly one
descriptor is appended to each of the `num_phases` phase lists (none beyond),
the descriptors are chained — the descriptor of phase `p` reads at the offset
to which the descriptor of phase `p-1` wrote — and the source cursor, each
intermediate per-device cursor on the hop path, and the destination cursor
all advance by exactly the resolved transfer length. -/
theorem C4_multi_phase_descriptors_chained
    (h : transfer_handler) (sequence : List Nat) (chunks : Nat)
    (hP : 2 ≤ h.num_phases)
    (hlen : sequence.length = h.num_phases + 1) :
    (h.push_back sequence chunks).1 = true
    ∧ (∀ p < h.num_phases,
        (h.push_back sequence chunks).2.phases p =
          h.phases p ++ [h.emitted_descr sequence chunks p])
    ∧ (∀ p, h.num_phases ≤ p →
        (h.push_back sequence chunks).2.phases p = h.phases p)
    ∧ (∀ p, 0 < p → p < h.num_phases →
        (h.emitted_descr sequence chunks p).src_pos =
          (h.emitted_descr sequence chunks (p - 1)).trg_pos)
    ∧ (h.push_back sequence chunks).2.src_offsets
          (sequence.headD 0) (sequence.getLastD 0) =
        h.src_offsets (sequence.headD 0) (sequence.getLastD 0) +
          h.resolved_size sequence chunks
    ∧ (∀ p < h.num_phases - 1,
        (h.push_back sequence chunks).2.phases_offsets p
            (sequence.getD (p + 1) 0) =
          h.phases_offsets p (sequence.getD (p + 1) 0) +
            h.resolved_size sequence chunks)
    ∧ (h.push_back sequence chunks).2.trg_offsets
          (sequence.headD 0) (sequence.getLastD 0) =
        h.trg_offsets (sequence.headD 0) (sequence.getLastD 0) +
          h.resolved_size sequence chunks := by
  refine ⟨h.push_back_fst sequence chunks hlen, ?_, ?_, ?_, ?_, ?_, ?_⟩
  · intro p hp
    rw [h.push_back_phases sequence chunks (by omega) hlen p, if_pos hp]
  · intro p hp
    rw [h.push_back_phases sequence chunks (by omega) hlen p,
      if_neg (by omega)]
  · intro p hp0 hpP
    have h1 : ¬ (p = 0) := by omega
    have h2 : ¬ (p - 1 = h.num_phases - 1) := by omega
    have h3 : p - 1 + 1 = p := by omega
    simp [transfer_handler.emitted_descr, h1, h2, h3]
  · rw [h.push_back_src_offsets sequence chunks hlen _ _, if_pos ⟨rfl, rfl⟩]
  · intro p hp
    rw [h.push_back_phases_offsets sequence chunks hlen p _,
      if_pos ⟨hp, rfl⟩]
  · rw [h.push_back_trg_offsets sequence chunks hlen _ _, if_pos ⟨rfl, rfl⟩]

/-- Concrete call exercising C4: two phases through hub device 1. -/
theorem C4_multi_phase_descriptors_chained_witness :
    ((transfer_handler.init 3 (fun _ _ => 1) (fun _ _ => 2) (fun _ _ => 4)
        2 1).push_back [0, 1, 2] 1).1 = true
    ∧ (∀ p < (transfer_handler.init 3 (fun _ _ => 1) (fun _ _ => 2)
          (fun _ _ => 4) 2 1).num_phases,
        ((transfer_handler.init 3 (fun _ _ => 1) (fun _ _ => 2)
            (fun _ _ => 4) 2 1).push_back [0, 1, 2] 1).2.phases p =
          (transfer_handler.init 3 (fun _ _ => 1) (fun _ _ => 2)
              (fun _ _ => 4) 2 1).phases p ++
            [(transfer_handler.init 3 (fun _ _ => 1) (fun _ _ => 2)
                (fun _ _ => 4) 2 1).emitted_descr [0, 1, 2] 1 p])
    ∧ (∀ p, (transfer_handler.init 3 (fun _ _ => 1) (fun _ _ => 2)
          (fun _ _ => 4) 2 1).num_phases ≤ p →
        ((transfer_handler.init 3 (fun _ _ => 1) (fun _ _ => 2)
            (fun _ _ => 4) 2 1).push_back [0, 1, 2] 1).2.phases p =
          (transfer_handler.init 3 (fun _ _ => 1) (fun _ _ => 2)
              (fun _ _ => 4) 2 1).phases p)
    ∧ (∀ p, 0 < p → p < (transfer_handler.init 3 (fun _ _ => 1)
          (fun _ _ => 2) (fun _ _ => 4) 2 1).num_phases →
        ((transfer_handler.init 3 (fun _ _ => 1) (fun _ _ => 2)
            (fun _ _ => 4) 2 1).emitted_descr [0, 1, 2] 1 p).src_pos =
          ((transfer_handler.init 3 (fun _ _ => 1) (fun _ _ => 2)
              (fun _ _ => 4) 2 1).emitted_descr [0, 1, 2] 1 (p - 1)).trg_pos)
    ∧ ((transfer_handler.init 3 (fun _ _ => 1) (fun _ _ => 2) (fun _ _ => 4)
          2 1).push_back [0, 1, 2] 1).2.src_offsets 0 2 =
        1 + (transfer_handler.init 3 (fun _ _ => 1) (fun _ _ => 2)
            (fun _ _ => 4) 2 1).resolved_size [0, 1, 2] 1
    ∧ (∀ p < (transfer_handler.init 3 (fun _ _ => 1) (fun _ _ => 2)
          (fun _ _ => 4) 2 1).num_phases - 1,
        ((transfer_handler.init 3 (fun _ _ => 1) (fun _ _ => 2)
            (fun _ _ => 4) 2 1).push_back [0, 1, 2] 1).2.phases_offsets p
            ([0, 1, 2].getD (p + 1) 0) =
          (transfer_handler.init 3 (fun _ _ => 1) (fun _ _ => 2)
              (fun _ _ => 4) 2 1).phases_offsets p ([0, 1, 2].getD (p + 1) 0) +
            (transfer_handler.init 3 (fun _ _ => 1) (fun _ _ => 2)
                (fun _ _ => 4) 2 1).resolved_size [0, 1, 2] 1)
    ∧ ((transfer_handler.init 3 (fun _ _ => 1) (fun _ _ => 2) (fun _ _ => 4)
          2 1).push_back [0, 1, 2] 1).2.trg_offsets 0 2 =
        2 + (transfer_handler.init 3 (fun _ _ => 1) (fun _ _ => 2)
            (fun _ _ => 4) 2 1).resolved_size [0, 1, 2] 1 :=
  C4_multi_phase_descriptors_chained
    (transfer_handler.init 3 (fun _ _ => 1) (fun _ _ => 2) (fun _ _ => 4) 2 1)
    [0, 1, 2] 1 (by decide) (by decide)

theorem getLastD_eq_getD (l : List Nat) (x : Nat) :
    l.getLastD x = l.getD (l.length - 1) x := by
  rw [List.getLastD_eq_getLast?, List.getLast?_eq_getElem?,
    List.getD_eq_getElem?_getD]

/-- Sum of the transfer lengths of the final-phase descriptors whose
destination device is `d`. -/
def finalPhaseSum (h : transfer_handler) (d : Nat) : Nat :=
  (((h.phases (h.num_phases - 1)).filter
      (fun t => t.trg_gpu == d)).map transfer.len).sum

theorem runTrace_finalPhaseSum (d : Nat) (cs : List (List Nat × Nat)) :
    ∀ h : transfer_handler, 1 ≤ h.num_phases →
      (∀ c ∈ cs, (c.1).length = h.num_phases + 1) →
      finalPhaseSum (runCalls h cs) d =
        finalPhaseSum h d +
          (((runTrace h cs).2.filter
              (fun r => r.ok && (r.back == d))).map callRecord.len).sum := by
  induction cs with
  | nil => intro h _ _; simp [runCalls, runTrace]
  | cons c cs ih =>
      intro h hP hlens
      have hclen : c.1.length = h.num_phases + 1 :=
        hlens c (List.mem_cons_self c cs)
      obtain ⟨hfr1, hfr2, hfr3, hfr4, hfr5⟩ := h.push_back_frame c.1 c.2
      have hfst := h.push_back_fst c.1 c.2 hclen
      have hP' : 1 ≤ (h.push_back c.1 c.2).2.num_phases := by
        rw [hfr4]; exact hP
      have hlens' : ∀ c' ∈ cs,
          (c'.1).length = (h.push_back c.1 c.2).2.num_phases + 1 := by
        intro c' hc'; rw [hfr4]; exact hlens c' (List.mem_cons_of_mem c hc')
      have hrc : runCalls h (c :: cs) = runCalls (h.push_back c.1 c.2).2 cs :=
        rfl
      rw [hrc, ih (h.push_back c.1 c.2).2 hP' hlens']
      have hlast : c.1.getLastD 0 = c.1.getD h.num_phases 0 := by
        rw [getLastD_eq_getD, hclen]; rfl
      have hgpu : (h.emitted_descr c.1 c.2 (h.num_phases - 1)).trg_gpu =
          c.1.getLastD 0 := by
        dsimp only [transfer_handler.emitted_descr]
        rw [Nat.sub_add_cancel hP, hlast]
      have hfs : finalPhaseSum (h.push_back c.1 c.2).2 d =
          finalPhaseSum h d +
            (if (c.1.getLastD 0 == d) = true then
              h.resolved_size c.1 c.2 else 0) := by
        unfold finalPhaseSum
        rw [hfr4,
          h.push_back_phases c.1 c.2 hP hclen (h.num_phases - 1),
          if_pos (by omega), List.filter_append, List.map_append,
          List.sum_append, List.filter_cons, List.filter_nil]
        by_cases hd : (c.1.getLastD 0 == d) = true
        · rw [if_pos hd, if_pos (by rw [hgpu, hd])]
          rfl
        · rw [if_neg hd, if_neg (by rw [hgpu]; exact hd)]
          rfl
      have hlen0 : (h.push_back c.1 c.2).2.src_offsets
            (c.1.headD 0) (c.1.getLastD 0) -
            h.src_offsets (c.1.headD 0) (c.1.getLastD 0) =
          h.resolved_size c.1 c.2 := by
        rw [h.push_back_src_offsets c.1 c.2 hclen _ _, if_pos ⟨rfl, rfl⟩]
        omega
      rw [hfs]
      rw [show (runTrace h (c :: cs)).2 =
          (⟨(h.push_back c.1 c.2).1, c.1.headD 0, c.1.getLastD 0,
            h.src_offsets (c.1.headD 0) (c.1.getLastD 0),
            (h.push_back c.1 c.2).2.src_offsets (c.1.headD 0) (c.1.getLastD 0)
              - h.src_offsets (c.1.headD 0) (c.1.getLastD 0), c.2⟩ :
            callRecord) :: (runTrace (h.push_back c.1 c.2).2 cs).2 from rfl]
      rw [List.filter_cons]
      by_cases hd : (c.1.getLastD 0 == d) = true
      · rw [if_pos hd, if_pos (by rw [hfst, hd]; rfl)]
        rw [List.map_cons, List.sum_cons]
        dsimp only
        rw [hlen0]
        omega
      · rw [if_neg hd,
          if_neg (by rw [hfst, Bool.true_and]; exact hd)]
        omega

theorem sum_filter_back_partition (N d : Nat) (l : List callRecord)
    (hfr : ∀ r ∈ l, r.ok = true → r.front < N) :
    ((l.filter (fun r => r.ok && (r.back == d))).map callRecord.len).sum =
      ∑ s ∈ Finset.range N,
        ((l.filter (pairPred s d)).map callRecord.len).sum := by
  induction l with
  | nil => simp
  | cons r l ih =>
      have hfr' : ∀ x ∈ l, x.ok = true → x.front < N := fun x hx =>
        hfr x (List.mem_cons_of_mem r hx)
      have hsplit : ∀ s : Nat,
          ((List.filter (pairPred s d) (r :: l)).map callRecord.len).sum =
            (if s = r.front then
              (if (r.ok && (r.back == d)) = true then r.len else 0) else 0) +
              ((List.filter (pairPred s d) l).map callRecord.len).sum := by
        intro s
        rw [List.filter_cons]
        by_cases hs : s = r.front
        · by_cases hkeep : (r.ok && (r.back == d)) = true
          · rw [if_pos (by
                simp only [pairPred_eq_true]
                simp only [Bool.and_eq_true, beq_iff_eq] at hkeep
                exact ⟨hkeep.1, hs.symm, hkeep.2⟩),
              List.map_cons, List.sum_cons, if_pos hs, if_pos hkeep]
          · rw [if_neg (by
                simp only [pairPred_eq_true]
                rintro ⟨h1, _, h3⟩
                exact hkeep (by simp [h1, h3])),
              if_pos hs, if_neg hkeep]
            omega
        · rw [if_neg (by
              simp only [pairPred_eq_true]
              rintro ⟨_, h2, _⟩
              exact hs (h2.symm)), if_neg hs]
          omega
      rw [Finset.sum_congr rfl fun s _ => hsplit s, Finset.sum_add_distrib,
        Finset.sum_ite_eq', List.filter_cons]
      by_cases hkeep : (r.ok && (r.back == d)) = true
      · have hfrN : r.front ∈ Finset.range N := by
          rw [Finset.mem_range]
          exact hfr r (List.mem_cons_self r l)
            (by simp only [Bool.and_eq_true] at hkeep; exact hkeep.1)
        rw [if_pos hkeep, List.map_cons, List.sum_cons, ih hfr',
          if_pos hfrN, if_pos hkeep]
      · rw [if_neg hkeep, ih hfr']
        by_cases hmem : r.front ∈ Finset.range N
        · rw [if_pos hmem, if_neg hkeep]
          omega
        · rw [if_neg hmem]
          omega

theorem runTrace_front_lt (N : Nat) (cs : List (List Nat × Nat)) :
    ∀ h : transfer_handler, (∀ c ∈ cs, c.1.headD 0 < N) →
      ∀ r ∈ (runTrace h cs).2, r.ok = true → r.front < N := by
  induction cs with
  | nil => intro h _ r hr; simp [runTrace] at hr
  | cons c cs ih =>
      intro h hfr r hr hok
      rw [runTrace_cons] at hr
      rcases List.mem_cons.mp hr with h1 | h1
      · rw [h1]
        exact hfr c (List.mem_cons_self c cs)
      · exact ih (h.push_back c.1 c.2).2
          (fun c' hc' => hfr c' (List.mem_cons_of_mem c hc')) r h1 hok

theorem map_snd_rangeOf (l : List callRecord) :
    List.map Prod.snd (List.map rangeOf l) = List.map callRecord.len l := by
  rw [List.map_map]; rfl

/-- Claim C2: after the bookkeeper has processed all of the plan's hop
sequences — the plan covering every source for destination `d` with relative
sizes summing to the chunk count `C` per pair — the sum of the transfer
lengths of the final-phase descriptors targeting device `d` equals the column
sum `Σ_s sizes s d`. -/
theorem C2_flow_conservation_per_destination
    (num_devices : Nat) (src_disp trg_disp sizes : Nat → Nat → Nat)
    (P C : Nat) (cs : List (List Nat × Nat)) (d : Nat)
    (hP : 1 ≤ P) (hC : 1 ≤ C)
    (hok : ∀ c ∈ cs, (c.1).length = P + 1 ∧ c.1.headD 0 < num_devices)
    (hcov : ∀ s < num_devices,
        pairChunks
          (transfer_handler.init num_devices src_disp trg_disp sizes P C)
          cs s d = C) :
    finalPhaseSum
        (runCalls
          (transfer_handler.init num_devices src_disp trg_disp sizes P C) cs)
        d =
      ∑ s ∈ Finset.range num_devices, sizes s d := by
  have hlens : ∀ c ∈ cs, (c.1).length =
      (transfer_handler.init num_devices src_disp trg_disp sizes P C).num_phases
        + 1 := fun c hc => (hok c hc).1
  rw [runTrace_finalPhaseSum d cs _ hP hlens]
  have h0 : finalPhaseSum
      (transfer_handler.init num_devices src_disp trg_disp sizes P C) d = 0 := by
    simp [finalPhaseSum, transfer_handler.init]
  rw [h0, Nat.zero_add]
  rw [sum_filter_back_partition num_devices d _
    (runTrace_front_lt num_devices cs _ (fun c hc => (hok c hc).2))]
  refine Finset.sum_congr rfl fun s hs => ?_
  obtain ⟨_, hsum, hmin⟩ :=
    runTrace_pair_chain s d cs
      (transfer_handler.init num_devices src_disp trg_disp sizes P C)
      hlens (le_refl _) (Nat.le_add_right _ _)
  rw [pairRanges, map_snd_rangeOf] at hsum
  rw [hcov s (Finset.mem_range.mp hs)] at hmin
  dsimp only [transfer_handler.init] at hsum hmin
  have hSD : sizes s d ≤ SDIV (sizes s d) C * C := SDIV_mul_ge _ _ hC
  have : ((pairRecords
      (transfer_handler.init num_devices src_disp trg_disp sizes P C)
      cs s d).map callRecord.len).sum = sizes s d := by
    dsimp only [transfer_handler.init]
    omega
  rw [pairRecords] at this
  exact this

/-- Concrete run exercising C2: two devices, one phase, one chunk; the
final-phase descriptors targeting device 1 carry `sizes 0 1 + sizes 1 1 = 6`
elements. -/
theorem C2_flow_conservation_per_destination_witness :
    finalPhaseSum
        (runCalls
          (transfer_handler.init 2 (fun _ _ => 0) (fun _ _ => 0)
            (fun s d => 2 * s + d + 1) 1 1)
          [([0, 0], 1), ([0, 1], 1), ([1, 0], 1), ([1, 1], 1)])
        1 =
      ∑ s ∈ Finset.range 2, (2 * s + 1 + 1) :=
  C2_flow_conservation_per_destination 2 (fun _ _ => 0) (fun _ _ => 0)
    (fun s d => 2 * s + d + 1) 1 1
    [([0, 0], 1), ([0, 1], 1), ([1, 0], 1), ([1, 1], 1)] 1
    (by decide) (by decide)
    (by intro c hc; fin_cases hc <;> exact ⟨rfl, by decide⟩)
    (by decide)

/-- Entry `send_counts[s][d]` of the caller's send-count table, as the
bookkeeper reads it through `sizes[sequence.front()][sequence.back()]`. -/
def sizesOf (send_counts : List (List Nat)) (s d : Nat) : Nat :=
  (send_counts.getD s []).getD d 0

/-- The row-wise displacement scan of `execAsync`/`prepareExec`
(all_to_all.cuh lines 615-619, all_to_all_graph.cuh lines 378-382):
`std::partial_sum` of row `gpu` written one slot to the right, so
`src_displacements[gpu][0] = 0` and
`src_displacements[gpu][part+1] = src_displacements[gpu][part] + send_counts[gpu][part]`. -/
def src_displacements_of (send_counts : List (List Nat)) (gpu : Nat) :
    Nat → Nat
  | 0 => 0
  | part + 1 => src_displacements_of send_counts gpu part +
      sizesOf send_counts gpu part

/-- The column-wise displacement scan (all_to_all.cuh lines 621-627,
all_to_all_graph.cuh lines 384-390): starting from a zero row,
`trg_displacements[part+1][gpu] = send_counts[part][gpu] + trg_displacements[part][gpu]`. -/
def trg_displacements_of (send_counts : List (List Nat)) :
    Nat → Nat → Nat
  | 0, _ => 0
  | part + 1, gpu => sizesOf send_counts part gpu +
      trg_displacements_of send_counts part gpu

theorem src_displacements_of_sum (send_counts : List (List Nat)) (s : Nat) :
    ∀ N, src_displacements_of send_counts s N =
      ∑ j ∈ Finset.range N, sizesOf send_counts s j := by
  intro N
  induction N with
  | zero => simp [src_displacements_of]
  | succ n ih =>
      rw [src_displacements_of, ih, Finset.sum_range_succ]

theorem trg_displacements_of_sum (send_counts : List (List Nat)) (d : Nat) :
    ∀ N, trg_displacements_of send_counts N d =
      ∑ i ∈ Finset.range N, sizesOf send_counts i d := by
  intro N
  induction N with
  | zero => simp [trg_displacements_of]
  | succ n ih =>
      rw [trg_displacements_of, ih, Finset.sum_range_succ]
      omega

/-- Claim C8: the orchestrator computes `src_displacements` as the row-wise
prefix sum (`[s][0] = 0`, `[s][d+1] = [s][d] + sizes[s][d]`) and
`trg_displacements` as the column-wise prefix sum, so that
`src_displacements[s][N] - src_displacements[s][0] = Σ_d sizes[s][d]` and
`trg_displacements[N][d] = Σ_s sizes[s][d]`. -/
theorem C8_displacements_are_prefix_sums
    (send_counts : List (List Nat)) (N s d : Nat) :
    src_displacements_of send_counts s 0 = 0
    ∧ (∀ j, src_displacements_of send_counts s (j + 1) =
        src_displacements_of send_counts s j + sizesOf send_counts s j)
    ∧ src_displacements_of send_counts s N -
        src_displacements_of send_counts s 0 =
      ∑ j ∈ Finset.range N, sizesOf send_counts s j
    ∧ trg_displacements_of send_counts 0 d = 0
    ∧ (∀ i, trg_displacements_of send_counts (i + 1) d =
        sizesOf send_counts i d + trg_displacements_of send_counts i d)
    ∧ trg_displacements_of send_counts N d =
      ∑ i ∈ Finset.range N, sizesOf send_counts i d := by
  refine ⟨rfl, fun j => rfl, ?_, rfl, fun i => rfl,
    trg_displacements_of_sum send_counts d N⟩
  rw [src_displacements_of_sum send_counts s N]
  rfl

/-- The validation-relevant state of `all2all_t` (all_to_all.cuh lines 15-51);
`all2all_graph_t` (all_to_all_graph.cuh lines 15-59) carries the same fields
plus the cached executable handle, a native resource not modelled here. -/
structure all2all_t where
  num_devices : Nat
  plan_valid : Bool
  num_steps : Nat
  num_chunks : Nat
  transfer_sequences : List (List Nat × Nat)
deriving DecidableEq, Repr

/-- Result of one `execAsync`/`prepareExec` call: the boolean result, the
caller's source/destination pointer vectors after the call (`std::swap` when
the phase count is even), the copy descriptors launched to devices during the
call, and the engine state after the call (the methods are `const`; the
mutable cached graph handle is a native resource not modelled here). -/
structure execResult (α : Type) where
  ok : Bool
  srcs : List α
  dsts : List α
  copies : List transfer
  engine : all2all_t

/-- The transfer handler that `execAsync`/`prepareExec` builds: displacement
scans, a fresh handler, then `add_transfer`/`push_back` for every plan
transfer sequence in plan order. -/
def execHandler (e : all2all_t) (send_counts : List (List Nat)) :
    transfer_handler :=
  runCalls
    (transfer_handler.init e.num_devices
      (src_displacements_of send_counts)
      (trg_displacements_of send_counts)
      (sizesOf send_counts)
      e.num_steps e.num_chunks)
    e.transfer_sequences

/-- Embedding of `all2all_t::execAsync` (all_to_all.cuh lines 580-690, active branch):
plan and size validation with early `false` returns, displacement scans,
bookkeeping, the destination-capacity checks, then
`transfer_handler_graph::execute` — which launches every phase's copies as one
captured graph — `sync_all_streams`, and `std::swap(srcs, dsts)` when the
phase count is even. -/
def all2all_t.execAsync {α : Type} (e : all2all_t)
    (srcs : List α) (srcs_lens : List Nat)
    (dsts : List α) (dsts_lens : List Nat)
    (send_counts : List (List Nat)) : execResult α :=
  if check e.plan_valid = false then ⟨false, srcs, dsts, [], e⟩
  else if check (srcs.length == e.num_devices) = false then
    ⟨false, srcs, dsts, [], e⟩
  else if check (srcs_lens.length == e.num_devices) = false then
    ⟨false, srcs, dsts, [], e⟩
  else if check (dsts.length == e.num_devices) = false then
    ⟨false, srcs, dsts, [], e⟩
  else if check (dsts_lens.length == e.num_devices) = false then
    ⟨false, srcs, dsts, [], e⟩
  else if check (send_counts.length == e.num_devices) = false then
    ⟨false, srcs, dsts, [], e⟩
  else if (send_counts.all fun counts =>
      check (counts.length == e.num_devices)) = false then
    ⟨false, srcs, dsts, [], e⟩
  else if ((List.range (e.num_steps - 1)).all fun p =>
      check_size ((execHandler e send_counts).phases_offsets p)
        e.num_devices dsts_lens) = false then
    ⟨false, srcs, dsts, [], e⟩
  else if check_size ((execHandler e send_counts).trg_offsets e.num_devices)
      e.num_devices dsts_lens = false then
    ⟨false, srcs, dsts, [], e⟩
  else if e.num_steps % 2 == 0 then
    ⟨true, dsts, srcs,
      ((List.range e.num_steps).map (execHandler e send_counts).phases).join,
      e⟩
  else
    ⟨true, srcs, dsts,
      ((List.range e.num_steps).map (execHandler e send_counts).phases).join,
      e⟩

/-- Embedding of `all2all_graph_t::prepareExec` (all_to_all_graph.cuh lines 343-425): the
same validation, displacement and bookkeeping steps; `update_graph` then
captures all phases and instantiates or updates the cached executable —
issuing no copy, since a stream capture only records work — followed by the
destination-capacity checks and `std::swap(srcs, dsts)` on an even phase
count.  Copies are issued only by the separate `execAsync(stream)` graph
launch, so `copies` is always empty here. -/
def all2all_graph_t.prepareExec {α : Type} (e : all2all_t)
    (srcs : List α) (srcs_lens : List Nat)
    (dsts : List α) (dsts_lens : List Nat)
    (send_counts : List (List Nat)) : execResult α :=
  if check e.plan_valid = false then ⟨false, srcs, dsts, [], e⟩
  else if check (srcs.length == e.num_devices) = false then
    ⟨false, srcs, dsts, [], e⟩
  else if check (srcs_lens.length == e.num_devices) = false then
    ⟨false, srcs, dsts, [], e⟩
  else if check (dsts.length == e.num_devices) = false then
    ⟨false, srcs, dsts, [], e⟩
  else if check (dsts_lens.length == e.num_devices) = false then
    ⟨false, srcs, dsts, [], e⟩
  else if check (send_counts.length == e.num_devices) = false then
    ⟨false, srcs, dsts, [], e⟩
  else if (send_counts.all fun counts =>
      check (counts.length == e.num_devices)) = false then
    ⟨false, srcs, dsts, [], e⟩
  else if ((List.range (e.num_steps - 1)).all fun p =>
      check_size ((execHandler e send_counts).phases_offsets p)
        e.num_devices dsts_lens) = false then
    ⟨false, srcs, dsts, [], e⟩
  else if check_size ((execHandler e send_counts).trg_offsets e.num_devices)
      e.num_devices dsts_lens = false then
    ⟨false, srcs, dsts, [], e⟩
  else if e.num_steps % 2 == 0 then
    ⟨true, dsts, srcs, [], e⟩
  else
    ⟨true, srcs, dsts, [], e⟩

theorem check_size_true_iff (cursors : Nat → Nat) (N : Nat)
    (lens : List Nat) :
    check_size cursors N lens = true ↔ ∀ d < N, cursors d ≤ lens.getD d 0 := by
  simp [check_size]

set_option maxHeartbeats 2000000 in
theorem execAsync_spec {α : Type} (e : all2all_t)
    (srcs : List α) (srcs_lens : List Nat)
    (dsts : List α) (dsts_lens : List Nat)
    (send_counts : List (List Nat)) :
    (e.execAsync srcs srcs_lens dsts dsts_lens send_counts).engine = e
    ∧ ((e.execAsync srcs srcs_lens dsts dsts_lens send_counts).ok = false →
        (e.execAsync srcs srcs_lens dsts dsts_lens send_counts).srcs = srcs
        ∧ (e.execAsync srcs srcs_lens dsts dsts_lens send_counts).dsts = dsts
        ∧ (e.execAsync srcs srcs_lens dsts dsts_lens send_counts).copies = [])
    ∧ ((e.execAsync srcs srcs_lens dsts dsts_lens send_counts).ok = true →
        e.plan_valid = true
        ∧ srcs.length = e.num_devices
        ∧ srcs_lens.length = e.num_devices
        ∧ dsts.length = e.num_devices
        ∧ dsts_lens.length = e.num_devices
        ∧ send_counts.length = e.num_devices
        ∧ (∀ counts ∈ send_counts, counts.length = e.num_devices)
        ∧ (∀ p < e.num_steps - 1, ∀ dd < e.num_devices,
            (execHandler e send_counts).phases_offsets p dd ≤
              dsts_lens.getD dd 0)
        ∧ (∀ dd < e.num_devices,
            (execHandler e send_counts).trg_offsets e.num_devices dd ≤
              dsts_lens.getD dd 0)
        ∧ (e.num_steps % 2 = 0 →
            (e.execAsync srcs srcs_lens dsts dsts_lens send_counts).srcs = dsts
            ∧ (e.execAsync srcs srcs_lens dsts dsts_lens send_counts).dsts
                = srcs)
        ∧ (e.num_steps % 2 ≠ 0 →
            (e.execAsync srcs srcs_lens dsts dsts_lens send_counts).srcs = srcs
            ∧ (e.execAsync srcs srcs_lens dsts dsts_lens send_counts).dsts
                = dsts)) := by
  rcases hE : e.execAsync srcs srcs_lens dsts dsts_lens send_counts with
    ⟨ok, rs, rd, cp, en⟩
  dsimp only
  unfold all2all_t.execAsync at hE
  split_ifs at hE with h1 h2 h3 h4 h5 h6 h7 h8 h9 h10 <;>
    (injection hE with e1 e2 e3 e4 e5
     subst e1; subst e2; subst e3; subst e4; subst e5)
  iterate 9
    exact ⟨rfl, fun _ => ⟨rfl, rfl, rfl⟩, fun hok => Bool.noConfusion hok⟩
  · refine ⟨rfl, fun hok => Bool.noConfusion hok, fun _ =>
      ⟨by simpa [check] using h1, by simpa [check] using h2,
       by simpa [check] using h3, by simpa [check] using h4,
       by simpa [check] using h5, by simpa [check] using h6,
       ?_, ?_, ?_, fun _ => ⟨rfl, rfl⟩,
       fun hodd => absurd (by simpa using h10) hodd⟩⟩
    · intro counts hc
      rw [Bool.not_eq_false, List.all_eq_true] at h7
      simpa [check] using h7 counts hc
    · intro p hp dd hdd
      rw [Bool.not_eq_false, List.all_eq_true] at h8
      exact (check_size_true_iff _ _ _).mp
        (h8 p (List.mem_range.mpr hp)) dd hdd
    · intro dd hdd
      rw [Bool.not_eq_false] at h9
      exact (check_size_true_iff _ _ _).mp h9 dd hdd
  · refine ⟨rfl, fun hok => Bool.noConfusion hok, fun _ =>
      ⟨by simpa [check] using h1, by simpa [check] using h2,
       by simpa [check] using h3, by simpa [check] using h4,
       by simpa [check] using h5, by simpa [check] using h6,
       ?_, ?_, ?_, fun heven => absurd heven (by simpa using h10),
       fun _ => ⟨rfl, rfl⟩⟩⟩
    · intro counts hc
      rw [Bool.not_eq_false, List.all_eq_true] at h7
      simpa [check] using h7 counts hc
    · intro p hp dd hdd
      rw [Bool.not_eq_false, List.all_eq_true] at h8
      exact (check_size_true_iff _ _ _).mp
        (h8 p (List.mem_range.mpr hp)) dd hdd
    · intro dd hdd
      rw [Bool.not_eq_false] at h9
      exact (check_size_true_iff _ _ _).mp h9 dd hdd

set_option maxHeartbeats 2000000 in
theorem prepareExec_spec {α : Type} (e : all2all_t)
    (srcs : List α) (srcs_lens : List Nat)
    (dsts : List α) (dsts_lens : List Nat)
    (send_counts : List (List Nat)) :
    (all2all_graph_t.prepareExec e srcs srcs_lens dsts dsts_lens
        send_counts).engine = e
    ∧ (all2all_graph_t.prepareExec e srcs srcs_lens dsts dsts_lens
        send_counts).copies = []
    ∧ ((all2all_graph_t.prepareExec e srcs srcs_lens dsts dsts_lens
          send_counts).ok = false →
        (all2all_graph_t.prepareExec e srcs srcs_lens dsts dsts_lens
            send_counts).srcs = srcs
        ∧ (all2all_graph_t.prepareExec e srcs srcs_lens dsts dsts_lens
            send_counts).dsts = dsts)
    ∧ ((all2all_graph_t.prepareExec e srcs srcs_lens dsts dsts_lens
          send_counts).ok = true →
        e.plan_valid = true
        ∧ srcs.length = e.num_devices
        ∧ srcs_lens.length = e.num_devices
        ∧ dsts.length = e.num_devices
        ∧ dsts_lens.length = e.num_devices
        ∧ send_counts.length = e.num_devices
        ∧ (∀ counts ∈ send_counts, counts.length = e.num_devices)
        ∧ (∀ p < e.num_steps - 1, ∀ dd < e.num_devices,
            (execHandler e send_counts).phases_offsets p dd ≤
              dsts_lens.getD dd 0)
        ∧ (∀ dd < e.num_devices,
            (execHandler e send_counts).trg_offsets e.num_devices dd ≤
              dsts_lens.getD dd 0)
        ∧ (e.num_steps % 2 = 0 →
            (all2all_graph_t.prepareExec e srcs srcs_lens dsts dsts_lens
                send_counts).srcs = dsts
            ∧ (all2all_graph_t.prepareExec e srcs srcs_lens dsts dsts_lens
                send_counts).dsts = srcs)
        ∧ (e.num_steps % 2 ≠ 0 →
            (all2all_graph_t.prepareExec e srcs srcs_lens dsts dsts_lens
                send_counts).srcs = srcs
            ∧ (all2all_graph_t.prepareExec e srcs srcs_lens dsts dsts_lens
                send_counts).dsts = dsts)) := by
  rcases hE : all2all_graph_t.prepareExec e srcs srcs_lens dsts dsts_lens
      send_counts with ⟨ok, rs, rd, cp, en⟩
  dsimp only
  unfold all2all_graph_t.prepareExec at hE
  split_ifs at hE with h1 h2 h3 h4 h5 h6 h7 h8 h9 h10 <;>
    (injection hE with e1 e2 e3 e4 e5
     subst e1; subst e2; subst e3; subst e4; subst e5)
  iterate 9
    exact ⟨rfl, rfl, fun _ => ⟨rfl, rfl⟩, fun hok => Bool.noConfusion hok⟩
  · refine ⟨rfl, rfl, fun hok => Bool.noConfusion hok, fun _ =>
      ⟨by simpa [check] using h1, by simpa [check] using h2,
       by simpa [check] using h3, by simpa [check] using h4,
       by simpa [check] using h5, by simpa [check] using h6,
       ?_, ?_, ?_, fun _ => ⟨rfl, rfl⟩,
       fun hodd => absurd (by simpa using h10) hodd⟩⟩
    · intro counts hc
      rw [Bool.not_eq_false, List.all_eq_true] at h7
      simpa [check] using h7 counts hc
    · intro p hp dd hdd
      rw [Bool.not_eq_false, List.all_eq_true] at h8
      exact (check_size_true_iff _ _ _).mp
        (h8 p (List.mem_range.mpr hp)) dd hdd
    · intro dd hdd
      rw [Bool.not_eq_false] at h9
      exact (check_size_true_iff _ _ _).mp h9 dd hdd
  · refine ⟨rfl, rfl, fun hok => Bool.noConfusion hok, fun _ =>
      ⟨by simpa [check] using h1, by simpa [check] using h2,
       by simpa [check] using h3, by simpa [check] using h4,
       by simpa [check] using h5, by simpa [check] using h6,
       ?_, ?_, ?_, fun heven => absurd heven (by simpa using h10),
       fun _ => ⟨rfl, rfl⟩⟩⟩
    · intro counts hc
      rw [Bool.not_eq_false, List.all_eq_true] at h7
      simpa [check] using h7 counts hc
    · intro p hp dd hdd
      rw [Bool.not_eq_false, List.all_eq_true] at h8
      exact (check_size_true_iff _ _ _).mp
        (h8 p (List.mem_range.mpr hp)) dd hdd
    · intro dd hdd
      rw [Bool.not_eq_false] at h9
      exact (check_size_true_iff _ _ _).mp h9 dd hdd

/-- Claim C5: for every `execAsync`/`prepareExec` call that returns `true`, the
caller's source and destination buffer-pointer vectors are swapped in place
relative to their original binding if and only if the plan's phase count is
even; with an odd phase count both vectors are left exactly as passed in. -/
theorem C5_even_phase_count_swaps_buffers {α : Type} (e : all2all_t)
    (srcs : List α) (srcs_lens : List Nat)
    (dsts : List α) (dsts_lens : List Nat)
    (send_counts : List (List Nat)) :
    ((e.execAsync srcs srcs_lens dsts dsts_lens send_counts).ok = true →
      if e.num_steps % 2 = 0 then
        (e.execAsync srcs srcs_lens dsts dsts_lens send_counts).srcs = dsts
        ∧ (e.execAsync srcs srcs_lens dsts dsts_lens send_counts).dsts = srcs
      else
        (e.execAsync srcs srcs_lens dsts dsts_lens send_counts).srcs = srcs
        ∧ (e.execAsync srcs srcs_lens dsts dsts_lens send_counts).dsts = dsts)
    ∧ ((all2all_graph_t.prepareExec e srcs srcs_lens dsts dsts_lens
          send_counts).ok = true →
      if e.num_steps % 2 = 0 then
        (all2all_graph_t.prepareExec e srcs srcs_lens dsts dsts_lens
            send_counts).srcs = dsts
        ∧ (all2all_graph_t.prepareExec e srcs srcs_lens dsts dsts_lens
            send_counts).dsts = srcs
      else
        (all2all_graph_t.prepareExec e srcs srcs_lens dsts dsts_lens
            send_counts).srcs = srcs
        ∧ (all2all_graph_t.prepareExec e srcs srcs_lens dsts dsts_lens
            send_counts).dsts = dsts) := by
  constructor
  · intro hok
    obtain ⟨-, -, hsucc⟩ :=
      execAsync_spec e srcs srcs_lens dsts dsts_lens send_counts
    obtain ⟨-, -, -, -, -, -, -, -, -, heven, hodd⟩ := hsucc hok
    by_cases hp : e.num_steps % 2 = 0
    · rw [if_pos hp]; exact heven hp
    · rw [if_neg hp]; exact hodd hp
  · intro hok
    obtain ⟨-, -, -, hsucc⟩ :=
      prepareExec_spec e srcs srcs_lens dsts dsts_lens send_counts
    obtain ⟨-, -, -, -, -, -, -, -, -, heven, hodd⟩ := hsucc hok
    by_cases hp : e.num_steps % 2 = 0
    · rw [if_pos hp]; exact heven hp
    · rw [if_neg hp]; exact hodd hp

/-- Concrete successful run exercising C5: a one-device, one-phase engine;
the call succeeds and, the phase count being odd, the caller's vectors come
back unswapped from both entry points. -/
theorem C5_even_phase_count_swaps_buffers_witness :
    ((⟨1, true, 1, 1, [([0, 0], 1)]⟩ : all2all_t).execAsync
        [10] [0] [20] [0] [[0]]).srcs = [10]
    ∧ ((⟨1, true, 1, 1, [([0, 0], 1)]⟩ : all2all_t).execAsync
        [10] [0] [20] [0] [[0]]).dsts = [20]
    ∧ (all2all_graph_t.prepareExec (⟨1, true, 1, 1, [([0, 0], 1)]⟩ :
        all2all_t) [10] [0] [20] [0] [[0]]).srcs = [10]
    ∧ (all2all_graph_t.prepareExec (⟨1, true, 1, 1, [([0, 0], 1)]⟩ :
        all2all_t) [10] [0] [20] [0] [[0]]).dsts = [20] := by
  have h := C5_even_phase_count_swaps_buffers
    (⟨1, true, 1, 1, [([0, 0], 1)]⟩ : all2all_t) [10] [0] [20] [0] [[0]]
  have h1 := h.1 (by decide)
  have h2 := h.2 (by decide)
  rw [if_neg (by decide)] at h1 h2
  exact ⟨h1.1, h1.2, h2.1, h2.2⟩

/-- Claim C7: when some intermediate-phase cursor or the final
destination-capacity row computed by the bookkeeper exceeds the
caller-declared destination-buffer length of its device, `execAsync` and
`prepareExec` return `false` and no copy has been issued to any device. -/
theorem C7_capacity_overrun_fails_before_copies {α : Type} (e : all2all_t)
    (srcs : List α) (srcs_lens : List Nat)
    (dsts : List α) (dsts_lens : List Nat)
    (send_counts : List (List Nat))
    (hbad : (∃ p < e.num_steps - 1, ∃ dd < e.num_devices,
        dsts_lens.getD dd 0 <
          (execHandler e send_counts).phases_offsets p dd)
      ∨ (∃ dd < e.num_devices,
        dsts_lens.getD dd 0 <
          (execHandler e send_counts).trg_offsets e.num_devices dd)) :
    (e.execAsync srcs srcs_lens dsts dsts_lens send_counts).ok = false
    ∧ (e.execAsync srcs srcs_lens dsts dsts_lens send_counts).copies = []
    ∧ (all2all_graph_t.prepareExec e srcs srcs_lens dsts dsts_lens
        send_counts).ok = false
    ∧ (all2all_graph_t.prepareExec e srcs srcs_lens dsts dsts_lens
        send_counts).copies = [] := by
  obtain ⟨-, hfail, hsucc⟩ :=
    execAsync_spec e srcs srcs_lens dsts dsts_lens send_counts
  obtain ⟨-, hcp, -, hsucc'⟩ :=
    prepareExec_spec e srcs srcs_lens dsts dsts_lens send_counts
  have hok : (e.execAsync srcs srcs_lens dsts dsts_lens send_counts).ok =
      false := by
    cases hE : (e.execAsync srcs srcs_lens dsts dsts_lens send_counts).ok with
    | false => rfl
    | true =>
        obtain ⟨-, -, -, -, -, -, -, hph, htrg, -, -⟩ := hsucc hE
        rcases hbad with ⟨p, hp, dd, hdd, hover⟩ | ⟨dd, hdd, hover⟩
        · exact absurd (hph p hp dd hdd) (by omega)
        · exact absurd (htrg dd hdd) (by omega)
  have hok' : (all2all_graph_t.prepareExec e srcs srcs_lens dsts dsts_lens
      send_counts).ok = false := by
    cases hE : (all2all_graph_t.prepareExec e srcs srcs_lens dsts dsts_lens
        send_counts).ok with
    | false => rfl
    | true =>
        obtain ⟨-, -, -, -, -, -, -, hph, htrg, -, -⟩ := hsucc' hE
        rcases hbad with ⟨p, hp, dd, hdd, hover⟩ | ⟨dd, hdd, hover⟩
        · exact absurd (hph p hp dd hdd) (by omega)
        · exact absurd (htrg dd hdd) (by omega)
  exact ⟨hok, (hfail hok).2.2, hok', hcp⟩

/-- Concrete overrun exercising C7: one device sends 5 elements but the
destination buffer length is declared as 3. -/
theorem C7_capacity_overrun_fails_before_copies_witness :
    ((⟨1, true, 1, 1, [([0, 0], 1)]⟩ : all2all_t).execAsync
        [10] [5] [20] [3] [[5]]).ok = false
    ∧ ((⟨1, true, 1, 1, [([0, 0], 1)]⟩ : all2all_t).execAsync
        [10] [5] [20] [3] [[5]]).copies = []
    ∧ (all2all_graph_t.prepareExec (⟨1, true, 1, 1, [([0, 0], 1)]⟩ :
        all2all_t) [10] [5] [20] [3] [[5]]).ok = false
    ∧ (all2all_graph_t.prepareExec (⟨1, true, 1, 1, [([0, 0], 1)]⟩ :
        all2all_t) [10] [5] [20] [3] [[5]]).copies = [] :=
  C7_capacity_overrun_fails_before_copies
    (⟨1, true, 1, 1, [([0, 0], 1)]⟩ : all2all_t) [10] [5] [20] [3] [[5]]
    (Or.inr ⟨0, by decide, by decide⟩)

/-- The synchronous configuration-error conditions of the orchestrator entry
points: an invalid plan, a pointer or length vector whose size differs from
the device count, or a send-count table that is not `N×N`. -/
def configError {α : Type} (e : all2all_t) (srcs : List α)
    (srcs_lens : List Nat) (dsts : List α) (dsts_lens : List Nat)
    (send_counts : List (List Nat)) : Prop :=
  e.plan_valid = false ∨ srcs.length ≠ e.num_devices ∨
  srcs_lens.length ≠ e.num_devices ∨ dsts.length ≠ e.num_devices ∨
  dsts_lens.length ≠ e.num_devices ∨ send_counts.length ≠ e.num_devices ∨
  (∃ counts ∈ send_counts, counts.length ≠ e.num_devices)

/-- Claim C9: every configuration error — mismatched vector sizes, a send-count
table that is not `N×N`, an invalid plan, or a hop sequence whose length
differs from `num_phases + 1` — is detected synchronously: the affected call
returns `false` with the caller's vectors untouched and no copy issued, the
engine state after the call equals the engine state before it (so subsequent
calls behave as on a fresh engine), and `push_back` rejects a bad hop
sequence leaving the handler unchanged. -/
theorem C9_config_errors_synchronous_engine_reusable {α : Type}
    (e : all2all_t) (srcs : List α) (srcs_lens : List Nat)
    (dsts : List α) (dsts_lens : List Nat)
    (send_counts : List (List Nat))
    (hbad : configError e srcs srcs_lens dsts dsts_lens send_counts) :
    ((e.execAsync srcs srcs_lens dsts dsts_lens send_counts).ok = false
      ∧ (e.execAsync srcs srcs_lens dsts dsts_lens send_counts).srcs = srcs
      ∧ (e.execAsync srcs srcs_lens dsts dsts_lens send_counts).dsts = dsts
      ∧ (e.execAsync srcs srcs_lens dsts dsts_lens send_counts).copies = []
      ∧ (e.execAsync srcs srcs_lens dsts dsts_lens send_counts).engine = e)
    ∧ ((all2all_graph_t.prepareExec e srcs srcs_lens dsts dsts_lens
          send_counts).ok = false
      ∧ (all2all_graph_t.prepareExec e srcs srcs_lens dsts dsts_lens
          send_counts).srcs = srcs
      ∧ (all2all_graph_t.prepareExec e srcs srcs_lens dsts dsts_lens
          send_counts).dsts = dsts
      ∧ (all2all_graph_t.prepareExec e srcs srcs_lens dsts dsts_lens
          send_counts).copies = []
      ∧ (all2all_graph_t.prepareExec e srcs srcs_lens dsts dsts_lens
          send_counts).engine = e)
    ∧ (∀ (h : transfer_handler) (sequence : List Nat) (chunks : Nat),
        sequence.length ≠ h.num_phases + 1 →
        h.push_back sequence chunks = (false, h)) := by
  obtain ⟨heng, hfail, hsucc⟩ :=
    execAsync_spec e srcs srcs_lens dsts dsts_lens send_counts
  obtain ⟨heng', hcp', hfail', hsucc'⟩ :=
    prepareExec_spec e srcs srcs_lens dsts dsts_lens send_counts
  have hok : (e.execAsync srcs srcs_lens dsts dsts_lens send_counts).ok =
      false := by
    cases hE : (e.execAsync srcs srcs_lens dsts dsts_lens send_counts).ok with
    | false => rfl
    | true =>
        obtain ⟨v1, v2, v3, v4, v5, v6, v7, -, -, -, -⟩ := hsucc hE
        rcases hbad with hb | hb | hb | hb | hb | hb | ⟨counts, hc, hb⟩
        · rw [v1] at hb; exact hb
        · exact (hb v2).elim
        · exact (hb v3).elim
        · exact (hb v4).elim
        · exact (hb v5).elim
        · exact (hb v6).elim
        · exact (hb (v7 counts hc)).elim
  have hok' : (all2all_graph_t.prepareExec e srcs srcs_lens dsts dsts_lens
      send_counts).ok = false := by
    cases hE : (all2all_graph_t.prepareExec e srcs srcs_lens dsts dsts_lens
        send_counts).ok with
    | false => rfl
    | true =>
        obtain ⟨v1, v2, v3, v4, v5, v6, v7, -, -, -, -⟩ := hsucc' hE
        rcases hbad with hb | hb | hb | hb | hb | hb | ⟨counts, hc, hb⟩
        · rw [v1] at hb; exact hb
        · exact (hb v2).elim
        · exact (hb v3).elim
        · exact (hb v4).elim
        · exact (hb v5).elim
        · exact (hb v6).elim
        · exact (hb (v7 counts hc)).elim
  obtain ⟨hs1, hs2, hs3⟩ := hfail hok
  obtain ⟨hs1', hs2'⟩ := hfail' hok'
  exact ⟨⟨hok, hs1, hs2, hs3, heng⟩, ⟨hok', hs1', hs2', hcp', heng'⟩,
    fun h sequence chunks hlen => h.push_back_fail sequence chunks hlen⟩

/-- Concrete configuration error exercising C9: the engine's plan is marked
invalid, so both entry points reject the call and leave everything unchanged,
and `push_back` rejects a hop sequence of the wrong length. -/
theorem C9_config_errors_synchronous_engine_reusable_witness :
    (((⟨2, false, 1, 1, []⟩ : all2all_t).execAsync
        [10, 11] [1, 1] [20, 21] [1, 1] [[1, 0], [0, 1]]).ok = false
      ∧ ((⟨2, false, 1, 1, []⟩ : all2all_t).execAsync
          [10, 11] [1, 1] [20, 21] [1, 1] [[1, 0], [0, 1]]).srcs = [10, 11]
      ∧ ((⟨2, false, 1, 1, []⟩ : all2all_t).execAsync
          [10, 11] [1, 1] [20, 21] [1, 1] [[1, 0], [0, 1]]).dsts = [20, 21]
      ∧ ((⟨2, false, 1, 1, []⟩ : all2all_t).execAsync
          [10, 11] [1, 1] [20, 21] [1, 1] [[1, 0], [0, 1]]).copies = []
      ∧ ((⟨2, false, 1, 1, []⟩ : all2all_t).execAsync
          [10, 11] [1, 1] [20, 21] [1, 1] [[1, 0], [0, 1]]).engine =
        (⟨2, false, 1, 1, []⟩ : all2all_t))
    ∧ ((all2all_graph_t.prepareExec (⟨2, false, 1, 1, []⟩ : all2all_t)
          [10, 11] [1, 1] [20, 21] [1, 1] [[1, 0], [0, 1]]).ok = false
      ∧ (all2all_graph_t.prepareExec (⟨2, false, 1, 1, []⟩ : all2all_t)
          [10, 11] [1, 1] [20, 21] [1, 1] [[1, 0], [0, 1]]).srcs = [10, 11]
      ∧ (all2all_graph_t.prepareExec (⟨2, false, 1, 1, []⟩ : all2all_t)
          [10, 11] [1, 1] [20, 21] [1, 1] [[1, 0], [0, 1]]).dsts = [20, 21]
      ∧ (all2all_graph_t.prepareExec (⟨2, false, 1, 1, []⟩ : all2all_t)
          [10, 11] [1, 1] [20, 21] [1, 1] [[1, 0], [0, 1]]).copies = []
      ∧ (all2all_graph_t.prepareExec (⟨2, false, 1, 1, []⟩ : all2all_t)
          [10, 11] [1, 1] [20, 21] [1, 1] [[1, 0], [0, 1]]).engine =
        (⟨2, false, 1, 1, []⟩ : all2all_t))
    ∧ (∀ (h : transfer_handler) (sequence : List Nat) (chunks : Nat),
        sequence.length ≠ h.num_phases + 1 →
        h.push_back sequence chunks = (false, h)) :=
  C9_config_errors_synchronous_engine_reusable
    (⟨2, false, 1, 1, []⟩ : all2all_t) [10, 11] [1, 1] [20, 21] [1, 1]
    [[1, 0], [0, 1]] (Or.inl rfl)

/-- The graph-executor primitives visible at the construction-path level: one
capture-and-update step (a full stream capture followed by
executable-update-or-instantiate, i.e. one `update_graph`/`update_phase_graph`
call) and one launch of the instantiated executable (`cudaGraphLaunch`). -/
inductive graph_op where
  | capture_and_update : graph_op
  | graph_launch : graph_op
deriving DecidableEq, Repr

/-- Trace of `transfer_handler_graph::execute` (all_to_all.cuh lines 556-570): two
`update_graph` calls in succession, then `cudaGraphLaunch` of the whole-run
executable. -/
def transfer_handler_graph_execute_ops : List graph_op :=
  [graph_op.capture_and_update, graph_op.capture_and_update,
   graph_op.graph_launch]

/-- Trace of `transfer_handler_graph::execute_phase` (all_to_all.cuh lines 449-464):
two `update_phase_graph` calls in succession, then `cudaGraphLaunch` of the
per-phase executable. -/
def transfer_handler_graph_execute_phase_ops : List graph_op :=
  [graph_op.capture_and_update, graph_op.capture_and_update,
   graph_op.graph_launch]

/-- Trace of a prepare-then-launch cycle: `all2all_graph_t::prepareExec`
(all_to_all_graph.cuh line 408) performs a
single `update_graph` call; the launch happens only in the separate
`all2all_graph_t::execAsync` (all_to_all_graph.cuh line 430).  This is the
graph-op trace of a fresh prepare-then-launch cycle. -/
def all2all_graph_t_prepare_launch_ops : List graph_op :=
  [graph_op.capture_and_update] ++ [graph_op.graph_launch]

/-- Number of capture-and-update steps performed before the first launch of
the executable in a construction path. -/
def captures_before_first_launch (ops : List graph_op) : Nat :=
  (ops.takeWhile (fun op => op != graph_op.graph_launch)).count
    graph_op.capture_and_update

/-- Claim C6, counterexample: the claim says every graph-executor construction
path performs the capture-and-update step exactly twice before the first
launch of a fresh executable; the `all2all_graph_t::prepareExec` path
(all_to_all_graph.cuh lines 399-430) performs it once. -/
theorem C6_counterexample_prepareExec_single_capture :
    captures_before_first_launch all2all_graph_t_prepare_launch_ops = 1
    ∧ captures_before_first_launch all2all_graph_t_prepare_launch_ops ≠ 2 := by
  constructor <;> decide

/-- Claim C6, amended: the whole-run (`execute`) and per-phase
(`execute_phase`) executors of `transfer_handler_graph` in all_to_all.cuh
perform the capture-and-update step exactly twice in succession before the
first launch; the `all2all_graph_t::prepareExec`/`execAsync` path of
all_to_all_graph.cuh performs it exactly once before the first launch. -/
theorem C6_amended_double_capture_only_in_all2all_t :
    captures_before_first_launch transfer_handler_graph_execute_ops = 2
    ∧ captures_before_first_launch transfer_handler_graph_execute_phase_ops = 2
    ∧ captures_before_first_launch all2all_graph_t_prepare_launch_ops = 1 := by
  refine ⟨?_, ?_, ?_⟩ <;> decide

end Gossip
